import Mathlib

/-!
Shallow embedding of the `tabletools` table library (`src/tabletools/table.py`,
`csv_module.py`, `pickle_module.py`).

A table is its raw `_data`: a `List (List α)` of rows, row 0 being the header.
Python iterator/sequence primitives used by the code (`zip(*rows)`, slice
notation, item access) are modelled first; each `Table` method is then a
direct translation.  Python exceptions are modelled with `Except`/`Option`
or with an explicit `(state, Option error)` pair when the method mutates
`_data` in place before the exception can fire.
-/

namespace Tabletools

/-- One step of `zip`: `heads?` splits every list in `ls` into head and tail; `none` when some
list is empty.  This is one step of the Python `zip(*ls)`. -/
def heads? {α : Type} (ls : List (List α)) : Option (List α × List (List α)) :=
  ls.foldr
    (fun l acc =>
      match l, acc with
      | a :: t, some (hs, ts) => some (a :: hs, t :: ts)
      | _, _ => none)
    (some ([], []))

/-- Fuel-driven worker for `pyZip`; the fuel is an upper bound on the number
of produced tuples (the length of the first list suffices). -/
def pyZipAux {α : Type} : Nat → List (List α) → List (List α)
  | 0, _ => []
  | n + 1, ls =>
    match heads? ls with
    | none => []
    | some (hs, ts) => hs :: pyZipAux n ts

/-- the Python `list(zip(*ls))` (each produced tuple kept as a list): transposes
`ls`, truncating at the shortest row; `zip()` of no iterables is empty. -/
def pyZip {α : Type} (ls : List (List α)) : List (List α) :=
  match ls with
  | [] => []
  | l :: ls' => pyZipAux l.length (l :: ls')

/-- Normalises a Python slice endpoint `i` for a sequence of length `len`:
negative values count from the end, then the result is clamped to `[0, len]`. -/
def pyBound (len : Nat) (i : Int) : Nat :=
  (max 0 (min (len : Int) (if i < 0 then (len : Int) + i else i))).toNat

/-- Python `l[a:b]`. -/
def pySlice {α : Type} (l : List α) (a b : Int) : List α :=
  (l.take (pyBound l.length b)).drop (pyBound l.length a)

/-- Python `l[a:]`. -/
def pySliceFrom {α : Type} (l : List α) (a : Int) : List α :=
  l.drop (pyBound l.length a)

/-- Python `l[:b]`. -/
def pySliceTo {α : Type} (l : List α) (b : Int) : List α :=
  l.take (pyBound l.length b)

/-- Python `l[i]` item access: negative indices count from the end; an
out-of-range index (`IndexError`) is `none`. -/
def pyGetItem {α : Type} (l : List α) (i : Int) : Option α :=
  let j : Int := if i < 0 then (l.length : Int) + i else i
  if j < 0 then none else l.get? j.toNat

/-- Python `str.isdigit()` restricted to ASCII: non-empty and every character
a decimal digit (the Unicode digit categories Python also accepts are out of
scope for this development). -/
def pyIsdigit (s : String) : Bool :=
  match s.data with
  | [] => false
  | cs => cs.all Char.isDigit

/-- ASCII lower-casing of one character (model of `str.lower` per character;
non-ASCII case mappings are out of scope). -/
def lowerChar (c : Char) : Char :=
  if 'A' ≤ c ∧ c ≤ 'Z' then Char.ofNat (c.toNat + 32) else c

/-- ASCII model of Python `s.lower()` on the character list of `s`. -/
def lowerAscii (cs : List Char) : List Char :=
  cs.map lowerChar

/-- A non-empty run of decimal digits. -/
def isDigits (cs : List Char) : Bool :=
  !cs.isEmpty && cs.all Char.isDigit

/-- Digits with an optional leading sign (the exponent of a float literal). -/
def signedDigits : List Char → Bool
  | '+' :: ds => isDigits ds
  | '-' :: ds => isDigits ds
  | ds => isDigits ds

/-- What may follow the mantissa: nothing, or `e` and a signed exponent
(the input is already lower-cased). -/
def expPart : List Char → Bool
  | [] => true
  | 'e' :: rest => signedDigits rest
  | _ => false

/-- Mantissa of a float literal: `digits [. digits] [exp]` or `. digits [exp]`. -/
def floatBody (cs : List Char) : Bool :=
  let p := cs.span Char.isDigit
  match p.2 with
  | '.' :: rest =>
    let q := rest.span Char.isDigit
    (!p.1.isEmpty || !q.1.isEmpty) && expPart q.2
  | rest => !p.1.isEmpty && expPart rest

/-- An unsigned float literal body, or one of the special words. -/
def floatUnsigned (cs : List Char) : Bool :=
  floatBody cs || cs = "inf".data || cs = "infinity".data || cs = "nan".data

/-- Whether the Python `float(s)` succeeds: optional sign, then a decimal
literal with optional fraction and exponent, or `inf`/`infinity`/`nan`,
case-insensitively.  (Surrounding whitespace and `_` digit separators, which
CPython also tolerates, are not modelled; no theorem depends on them.) -/
def pyFloatParses (s : String) : Bool :=
  match lowerAscii s.data with
  | '+' :: rest => floatUnsigned rest
  | '-' :: rest => floatUnsigned rest
  | cs => floatUnsigned cs

/-- The four Python types `_infer_type` can report. -/
inductive PKind
  | int
  | float
  | bool
  | str
deriving DecidableEq, Repr

namespace Table

/-- The string branch of the per-value classification of `Table._infer_type`
(table.py:99-110): `isdigit` → `int`; else `float(value)` succeeds →
`float`; else `value.lower() in ("true", "false")` → `bool`; else `str`. -/
def classifyStrValue (s : String) : PKind :=
  if pyIsdigit s then .int
  else if pyFloatParses s then .float
  else if lowerAscii s.data = "true".data ∨ lowerAscii s.data = "false".data then .bool
  else .str

/-- Method `Table._infer_type` (table.py:89-114) on a column of string values: the
set of kinds seen across the column (`dedup` plays the Python `set`); if
exactly one distinct kind was seen it is returned, otherwise `str`. -/
def _infer_type (column : List String) : PKind :=
  match (column.map classifyStrValue).dedup with
  | [k] => k
  | _ => PKind.str

/-- Method `Table.split` (table.py:301-325).  Guard `if not self._data` raises
"Table is empty"; otherwise the rows are transposed (`transported` holds the
columns), the *transposed* list is sliced at `row_number - 1`, and each slice
is transposed back into the rows of a new `Table`. -/
def split {α : Type} (data : List (List α)) (row_number : Int) :
    Except String (List (List α) × List (List α)) :=
  match data with
  | [] => .error ("Table is empty")
  | _ =>
    let transported := pyZip data
    .ok (pyZip (pySliceTo transported (row_number - 1)),
         pyZip (pySliceFrom transported (row_number - 1)))

/-- The `ValueError`s `Table.concat` can raise, with the duplicate-header
message payload (the list of duplicated names) carried explicitly, plus the
`IndexError` of `result_data[0]` on a degenerate input. -/
inductive ConcatError (α : Type) where
  | notEmpty
  | empty1
  | empty2
  | dupHeader (dups : List α)
  | rowLenMismatch
  | indexError
deriving DecidableEq

/-- Method `Table.concat` (table.py:263-299).  Guards in source order: receiver
non-empty, `table_1` empty, `table_2` empty; then the combined header
`data_1[0] + data_2[0]` is checked for duplicates (`len(headers) !=
len(set(headers))`, the offending names collected by `count > 1`); then the
column lists of both tables are concatenated, all column lengths must match
`len(result_data[0])`, and the re-transposed columns become the result.
`self._data` is assigned only on full success, which the `Except` shape
reflects. -/
def concat {α : Type} [DecidableEq α] (self d1 d2 : List (List α)) :
    Except (ConcatError α) (List (List α)) :=
  match self with
  | _ :: _ => .error .notEmpty
  | [] =>
    match d1, d2 with
    | [], _ => .error .empty1
    | _ :: _, [] => .error .empty2
    | h1 :: t1, h2 :: t2 =>
      if (h1 ++ h2).dedup.length ≠ (h1 ++ h2).length then
        .error (.dupHeader
          ((h1 ++ h2).filter (fun x => decide (1 < (h1 ++ h2).count x))))
      else
        match pyZip (h1 :: t1) ++ pyZip (h2 :: t2) with
        | [] => .error .indexError
        | c0 :: rest =>
          if (c0 :: rest).all (fun c => c.length == c0.length) then
            .ok (pyZip (c0 :: rest))
          else .error .rowLenMismatch

/-- The receiver `_data` after `Table.concat`: replaced on success, left as
it was when any of the errors fired (the source assigns `self._data` last). -/
def concatState {α : Type} [DecidableEq α] (self d1 d2 : List (List α)) :
    List (List α) :=
  match concat self d1 d2 with
  | .ok r => r
  | .error _ => self

/-- The errors `Table.set_values` can raise: the explicit length-mismatch
`ValueError`, and the `IndexError` of an out-of-range column assignment. -/
inductive SetValuesError where
  | cardinalityMismatch
  | indexError
deriving DecidableEq

/-- The mutation loop of `Table.set_values`: `self._data[i+1][col] = values[i]`
for each `i`, stopping with `IndexError` (rows as mutated so far kept) when a
row runs out or lacks position `col`. -/
def svGo {α : Type} (col : Nat) :
    List (List α) → List α → List (List α) × Option SetValuesError
  | rows, [] => (rows, none)
  | [], _ :: _ => ([], some .indexError)
  | r :: rs, v :: vs =>
    if col < r.length then
      let p := svGo col rs vs
      (r.set col v :: p.1, p.2)
    else (r :: rs, some .indexError)

/-- Method `Table.set_values` (table.py:210-235) with an integer column key (the
`isinstance(column, int)` branch): `values` must have exactly as many
elements as `self._data[1:]`, else the length-mismatch `ValueError` fires
before anything is written; then the cell at the column of each data row is
replaced in place.  The pair is (final `_data`, raised error if any). -/
def set_values {α : Type} (data : List (List α)) (values : List α) (col : Nat) :
    List (List α) × Option SetValuesError :=
  if values.length ≠ (data.drop 1).length then
    (data, some .cardinalityMismatch)
  else
    match data with
    | [] => ([], none)
    | h :: rows =>
      let p := svGo col rows values
      (h :: p.1, p.2)

/-- The exceptions `Table.set_column_types` can raise: the "Table is empty"
`ValueError`, the conversion `ValueError` carrying the offending value and the
target kind name, and the `IndexError` of an out-of-range cell access. -/
inductive SctError (α : Type) where
  | emptyTable
  | cannotConvert (value : α) (kind : String)
  | indexError
deriving DecidableEq

/-- One cell conversion of `set_column_types`: read `row[col]`, apply the
target kind constructor, write the result back at `col`; `none` when either
the access or the conversion fails. -/
def sctStep {α : Type} (conv : α → Option α) (col : Nat) (row : List α) :
    Option (List α) :=
  (row.get? col).bind (fun v => (conv v).map (fun v' => row.set col v'))

/-- The inner loop of `set_column_types` over the data rows (table.py:154-158):
the cell of each row at `col` is converted in place; on the first failing cell the
loop stops with the conversion error naming the (unchanged) cell value and
the target kind, leaving the failing row and all later rows untouched —
earlier rows keep their converted cells. -/
def sctGo {α : Type} (conv : α → Option α) (kind : String) (col : Nat) :
    List (List α) → List (List α) × Option (SctError α)
  | [] => ([], none)
  | r :: rs =>
    match r.get? col with
    | none => (r :: rs, some .indexError)
    | some v =>
      match conv v with
      | none => (r :: rs, some (.cannotConvert v kind))
      | some v' =>
        let p := sctGo conv kind col rs
        (r.set col v' :: p.1, p.2)

/-- The outer loop of `set_column_types` over the `column_types` mapping
(insertion-ordered, here a list of (column index, kind name, kind
constructor)): columns are processed in order, and the first error aborts the
remaining jobs, keeping all mutations made so far. -/
def sctJobs {α : Type} :
    List (Nat × String × (α → Option α)) → List (List α) →
    List (List α) × Option (SctError α)
  | [], rows => (rows, none)
  | (col, kind, conv) :: rest, rows =>
    let p := sctGo conv kind col rows
    match p.2 with
    | some e => (p.1, some e)
    | none => sctJobs rest p.1

/-- Method `Table.set_column_types` (table.py:135-158) with integer column keys (the
`by_number=True` path).  The guard `if not self._data` raises "Table is
empty" only when `_data` has no rows at all; otherwise the data rows
`_data[1:]` are converted column by column.  The pair is (final `_data`,
raised error if any). -/
def set_column_types {α : Type} (data : List (List α))
    (jobs : List (Nat × String × (α → Option α))) :
    List (List α) × Option (SctError α) :=
  match data with
  | [] => ([], some .emptyTable)
  | h :: rows =>
    let p := sctJobs jobs rows
    (h :: p.1, p.2)

/-- Value-level model of `copy.deepcopy` on a row list: structurally rebuilds
every row.  Aliasing is not observable in this embedding, so the deep copy is
provably equal to its source as a value. -/
def deepcopy {α : Type} (l : List (List α)) : List (List α) :=
  l.map (fun r => r.map (fun x => x))

/-- Method `Table.get_rows_by_number` (table.py:56-79).  `match stop`: `None` →
the one-element list `[self._data[start]]` (`IndexError`, i.e. `none`, when
`start` is out of range); `-1` → `self._data[start:]`; any other `stop` →
`self._data[start-1:stop]`; finally a deep copy when `copy_table` is set. -/
def get_rows_by_number {α : Type} (data : List (List α)) (start : Int)
    (stop : Option Int) (copy_table : Bool) : Option (List (List α)) :=
  let result? : Option (List (List α)) :=
    match stop with
    | none => (pyGetItem data start).map (fun r => [r])
    | some s =>
      if s = -1 then some (pySliceFrom data start)
      else some (pySlice data (start - 1) s)
  match result? with
  | none => none
  | some result => some (if copy_table then deepcopy result else result)

/-- Method `Table.get_rows_by_index` (table.py:81-87), without the deep-copy step
(modelled separately by `deepcopy`): keeps every row of `_data` — header
included — whose first cell `row[0]` is among `values`; `none` models the
`IndexError` of `row[0]` on an empty row. -/
def get_rows_by_index {α : Type} [DecidableEq α] (data : List (List α))
    (values : List α) : Option (List (List α)) :=
  match data with
  | [] => some []
  | r :: rs =>
    match r.head? with
    | none => none
    | some v =>
      match get_rows_by_index rs values with
      | none => none
      | some rest => some (if v ∈ values then r :: rest else rest)

/-- Method `Table.get_values` (table.py:160-182) with an integer column key: the
columns of the data rows `_data[1:]` are enumerated (`zip` truncation
included) and the one at the requested index returned; when the loop finds no
such index the function falls through and returns the Python `None`. -/
def get_values {α : Type} (data : List (List α)) (column : Nat) :
    Option (List α) :=
  (pyZip (data.drop 1)).get? column

end Table

/-- Consecutive chunks of `m` elements (the repeated `data[:max_rows]` /
`data = data[max_rows:]` loop of `CSVHandler.save_table`).  The fuel equals
the list length, enough for every `m ≥ 1`; with `m = 0` the Python loop never
terminates, which has no finite model and is outside every theorem below. -/
def chunksOfAux {α : Type} (m : Nat) : Nat → List α → List (List α)
  | 0, _ => []
  | _, [] => []
  | fuel + 1, l => l.take m :: chunksOfAux m fuel (l.drop m)

/-- All chunks of `m` rows of `l`, in order. -/
def chunksOf {α : Type} (m : Nat) (l : List α) : List (List α) :=
  chunksOfAux m l.length l

/-- The chunk-file naming scheme of both handlers:
`path[:-4] + "_" + counter + ext`. -/
def insertCounter (path : String) (ext : String) (counter : Nat) : String :=
  path.dropRight 4 ++ "_" ++ toString counter ++ ext

namespace CSVHandler

/-- Method `CSVHandler.save_table` (csv_module.py:24-49) as the list of (file name,
file rows) it writes: one file when `max_rows` is `None` or the row count
does not exceed it; otherwise chunks of `max_rows` rows with the header row
(written as the joined `headers` line) prepended to every chunk after the
first. -/
def save_table {α : Type} (data : List (List α)) (path : String)
    (max_rows : Option Nat) : List (String × List (List α)) :=
  match max_rows with
  | none => [(path, data)]
  | some m =>
    if data.length > m then
      (chunksOf m data).enum.map (fun p =>
        (insertCounter path (".csv") (p.1 + 1),
         if p.1 = 0 then p.2 else data.headD [] :: p.2))
    else [(path, data)]

end CSVHandler

namespace PickleHandler

/-- Method `PickleHandler.save_table` (pickle_module.py:26-48) as the list of (file
name, file rows) it writes: one file when `max_rows` is `None` or the row
count does not exceed it; otherwise `ceil((len(data)-1)/max_rows)` files,
each holding the header row followed by the next `max_rows` data rows
(`data[1+i*max_rows : 1+(i+1)*max_rows]`). -/
def save_table {α : Type} (data : List (List α)) (path : String)
    (max_rows : Option Nat) : List (String × List (List α)) :=
  match max_rows with
  | none => [(path, data)]
  | some m =>
    if data.length > m then
      (List.range ((data.length - 1 + m - 1) / m)).map (fun i =>
        (insertCounter path (".pkl") (i + 1),
         data.headD [] :: ((data.take (1 + i * m + m)).drop (1 + i * m))))
    else [(path, data)]

end PickleHandler

end Tabletools

/-- C1: the spec says `split(T, k)` partitions the *row* sequence of `T` at
absolute row position `k-1` and that concatenating the rows of the two halves
reconstructs `T`.  The code instead slices the transposed list, i.e. it
partitions the *columns*: on the 3-row, 2-column table
`[[0,1],[2,3],[4,5]]` with `row_number = 2` it returns the first-column
table `[[0],[2],[4]]` and the second-column table `[[1],[3],[5]]`; the
first half is not the claimed row prefix `[[0,1]]` and the rows of the halves do
not concatenate back to the original row sequence. -/
theorem Tabletools.Table.split_is_column_split_bug :
    Tabletools.Table.split [[0,1],[2,3],[4,5]] 2 =
      .ok ([[0],[2],[4]], ([[1],[3],[5]] : List (List Nat))) ∧
    [[0],[2],[4]] ≠ ([[0,1]] : List (List Nat)) ∧
    ([[0],[2],[4]] ++ [[1],[3],[5]] : List (List Nat)) ≠ [[0,1],[2,3],[4,5]] := by
  refine ⟨?_, by decide, by decide⟩
  rfl

/-- Deduplicating a non-empty list all of whose elements are `k` yields `[k]`. -/
theorem Tabletools.dedup_of_all_eq {α : Type} [DecidableEq α] (k : α) :
    ∀ (l : List α), l ≠ [] → (∀ x ∈ l, x = k) → l.dedup = [k] := by
  intro l
  induction l with
  | nil => intro h _; exact absurd rfl h
  | cons a t ih =>
    intro _ hall
    have ha : a = k := hall a (List.mem_cons_self a t)
    match t with
    | [] => simp [ha]
    | b :: t' =>
      have hmem : a ∈ b :: t' := by
        have hb : b = k := hall b (by simp)
        rw [ha, ← hb]; exact List.mem_cons_self b t'
      rw [List.dedup_cons_of_mem hmem]
      exact ih (by simp) (fun x hx => hall x (List.mem_cons_of_mem a hx))

/-- C2 (amended): `["1","2","3"]` infers to integer and `["1","abc"]` to
string as claimed, but `["1","2.5"]` infers to *string*, not floating-point:
`"1"` classifies as integer, `"2.5"` as floating-point, and per the general
rule two distinct kinds fall back to string.  The general rule holds as
claimed: a non-empty column whose values all classify to one kind infers to
that kind, and a column containing two values of distinct kinds infers to
string. -/
theorem Tabletools.Table.infer_type_spec :
    Tabletools.Table._infer_type ["1", "2", "3"] = Tabletools.PKind.int ∧
    Tabletools.Table._infer_type ["1", "2.5"] = Tabletools.PKind.str ∧
    Tabletools.Table._infer_type ["1", "abc"] = Tabletools.PKind.str ∧
    (∀ (column : List String) (k : Tabletools.PKind), column ≠ [] →
      (∀ v ∈ column, Tabletools.Table.classifyStrValue v = k) →
      Tabletools.Table._infer_type column = k) ∧
    (∀ (column : List String) (v w : String), v ∈ column → w ∈ column →
      Tabletools.Table.classifyStrValue v ≠ Tabletools.Table.classifyStrValue w →
      Tabletools.Table._infer_type column = Tabletools.PKind.str) := by
  refine ⟨by decide, by decide, by decide, ?_, ?_⟩
  · intro column k hne hall
    unfold Tabletools.Table._infer_type
    rw [Tabletools.dedup_of_all_eq k (column.map Tabletools.Table.classifyStrValue)
      (by simpa using hne) (by simpa using hall)]
  · intro column v w hv hw hne
    have hva : Tabletools.Table.classifyStrValue v ∈
        (column.map Tabletools.Table.classifyStrValue).dedup := by
      rw [List.mem_dedup]; exact List.mem_map_of_mem _ hv
    have hwa : Tabletools.Table.classifyStrValue w ∈
        (column.map Tabletools.Table.classifyStrValue).dedup := by
      rw [List.mem_dedup]; exact List.mem_map_of_mem _ hw
    unfold Tabletools.Table._infer_type
    match h : (column.map Tabletools.Table.classifyStrValue).dedup with
    | [] => rfl
    | [x] =>
      rw [h] at hva hwa
      exact absurd (List.mem_singleton.mp hva |>.trans (List.mem_singleton.mp hwa).symm) hne
    | x :: y :: ys => rfl

/-- The `dedup` of a list has full length exactly when the list has no duplicates
(`len(set(headers)) == len(headers)` in the source). -/
theorem Tabletools.dedup_length_eq_iff {α : Type} [DecidableEq α] (l : List α) :
    l.dedup.length = l.length ↔ l.Nodup := by
  constructor
  · intro h
    have heq := List.Sublist.eq_of_length (List.dedup_sublist l) h
    rw [← heq]
    exact List.nodup_dedup l
  · intro h
    rw [List.dedup_eq_self.mpr h]

/-- C3: `concat` raises "table not empty" whenever the receiver has rows,
"table #1/#2 empty" whenever the corresponding source has none, and, for
non-empty sources whose combined header has a repeated name, the
duplicate-header error whose payload holds exactly the names occurring more
than once in the combined header; in every error case the rows of the receiver
are unchanged. -/
theorem Tabletools.Table.concat_error_spec {α : Type} [DecidableEq α]
    (self d1 d2 : List (List α)) :
    (self ≠ [] →
      Tabletools.Table.concat self d1 d2 = .error .notEmpty ∧
      Tabletools.Table.concatState self d1 d2 = self) ∧
    (self = [] → d1 = [] →
      Tabletools.Table.concat self d1 d2 = .error .empty1 ∧
      Tabletools.Table.concatState self d1 d2 = self) ∧
    (self = [] → d1 ≠ [] → d2 = [] →
      Tabletools.Table.concat self d1 d2 = .error .empty2 ∧
      Tabletools.Table.concatState self d1 d2 = self) ∧
    (∀ h1 t1 h2 t2, self = [] → d1 = h1 :: t1 → d2 = h2 :: t2 →
      ¬ (h1 ++ h2).Nodup →
      Tabletools.Table.concat self d1 d2 = .error (.dupHeader
        ((h1 ++ h2).filter (fun x => decide (1 < (h1 ++ h2).count x)))) ∧
      (∀ x, x ∈ (h1 ++ h2).filter (fun x => decide (1 < (h1 ++ h2).count x)) ↔
        1 < (h1 ++ h2).count x) ∧
      Tabletools.Table.concatState self d1 d2 = self) ∧
    (∀ e, Tabletools.Table.concat self d1 d2 = .error e →
      Tabletools.Table.concatState self d1 d2 = self) := by
  refine ⟨?_, ?_, ?_, ?_, ?_⟩
  · intro h
    cases self with
    | nil => exact absurd rfl h
    | cons s ss => exact ⟨rfl, rfl⟩
  · intro hs hd1
    subst hs; subst hd1
    exact ⟨rfl, rfl⟩
  · intro hs hd1 hd2
    subst hs; subst hd2
    cases d1 with
    | nil => exact absurd rfl hd1
    | cons h t => exact ⟨rfl, rfl⟩
  · intro h1 t1 h2 t2 hs hd1 hd2 hnd
    subst hs; subst hd1; subst hd2
    have hne : (h1 ++ h2).dedup.length ≠ (h1 ++ h2).length :=
      fun hEq => hnd ((Tabletools.dedup_length_eq_iff (h1 ++ h2)).mp hEq)
    have hc : Tabletools.Table.concat [] (h1 :: t1) (h2 :: t2) = .error (.dupHeader
        ((h1 ++ h2).filter (fun x => decide (1 < (h1 ++ h2).count x)))) := by
      simp only [Tabletools.Table.concat]
      rw [if_pos hne]
    refine ⟨hc, ?_, ?_⟩
    · intro x
      simp only [List.mem_filter, decide_eq_true_eq]
      constructor
      · intro hx; exact hx.2
      · intro hx
        exact ⟨List.count_pos_iff.mp (Nat.lt_trans Nat.zero_lt_one hx), hx⟩
    · unfold Tabletools.Table.concatState
      rw [hc]
  · intro e he
    unfold Tabletools.Table.concatState
    rw [he]

/-- Witness for `Tabletools.Table.concat_error_spec`: a non-empty receiver
makes `concat` fail with the "table not empty" error. -/
theorem Tabletools.Table.concat_error_spec_witness :
    Tabletools.Table.concat [[1]] [[2]] [[3]] = .error .notEmpty :=
  ((Tabletools.Table.concat_error_spec [[1]] [[2]] [[3]]).1 (by decide)).1

/-- The mutation loop of `set_values`, under matching lengths and an
in-bounds column: no error, row count preserved, the addressed cell of each row
replaced by the corresponding value and every other cell untouched. -/
theorem Tabletools.Table.svGo_spec {α : Type} (col : Nat) :
    ∀ (rows : List (List α)) (values : List α),
      values.length = rows.length → (∀ r ∈ rows, col < r.length) →
      (Tabletools.Table.svGo col rows values).2 = none ∧
      (Tabletools.Table.svGo col rows values).1.length = rows.length ∧
      (∀ i r r', rows.get? i = some r →
        (Tabletools.Table.svGo col rows values).1.get? i = some r' →
        r'.get? col = values.get? i ∧ ∀ j, j ≠ col → r'.get? j = r.get? j) := by
  intro rows
  induction rows with
  | nil =>
    intro values hlen _
    have hv : values = [] := List.length_eq_zero.mp (by simpa using hlen)
    subst hv
    refine ⟨rfl, rfl, ?_⟩
    intro i r r' h _
    simp at h
  | cons r rs ih =>
    intro values hcol
    match values with
    | [] => intro _; simp at hcol
    | v :: vs =>
      intro hall
      have hr : col < r.length := hall r (List.mem_cons_self r rs)
      have hrs := ih vs (by simpa using hcol)
        (fun x hx => hall x (List.mem_cons_of_mem r hx))
      simp only [Tabletools.Table.svGo, if_pos hr]
      refine ⟨hrs.1, by simp [hrs.2.1], ?_⟩
      intro i x x' hx hx'
      match i with
      | 0 =>
        simp only [List.get?] at hx hx'
        cases hx; cases hx'
        refine ⟨List.get?_set_eq_of_lt v hr, ?_⟩
        intro j hj
        exact List.get?_set_ne v r (Ne.symm hj)
      | Nat.succ i' =>
        simp only [List.get?] at hx hx'
        exact hrs.2.2 i' x x' hx hx'

/-- C4: with an integer column key, `set_values` with a value sequence whose
length differs from the number of data rows fails with the
cardinality-mismatch error and leaves `_data` untouched; with a matching
length (and the column in range) it succeeds and replaces exactly the
data-row cells of the addressed column, preserving the header, the row count and
every other cell. -/
theorem Tabletools.Table.set_values_spec {α : Type}
    (data : List (List α)) (values : List α) (col : Nat) :
    (values.length ≠ (data.drop 1).length →
      Tabletools.Table.set_values data values col =
        (data, some Tabletools.Table.SetValuesError.cardinalityMismatch)) ∧
    (values.length = (data.drop 1).length → (∀ r ∈ data.drop 1, col < r.length) →
      (Tabletools.Table.set_values data values col).2 = none ∧
      (Tabletools.Table.set_values data values col).1.length = data.length ∧
      (Tabletools.Table.set_values data values col).1.head? = data.head? ∧
      ∀ i r r', (data.drop 1).get? i = some r →
        ((Tabletools.Table.set_values data values col).1.drop 1).get? i = some r' →
        r'.get? col = values.get? i ∧ ∀ j, j ≠ col → r'.get? j = r.get? j) := by
  constructor
  · intro h
    simp only [Tabletools.Table.set_values, if_pos h]
  · intro hlen hcol
    cases data with
    | nil =>
      have hv : values = [] := List.length_eq_zero.mp (by simpa using hlen)
      subst hv
      refine ⟨rfl, rfl, rfl, ?_⟩
      intro i r r' h _
      simp at h
    | cons h rows =>
      have hlen' : values.length = rows.length := by simpa using hlen
      have hs := Tabletools.Table.svGo_spec col rows values hlen'
        (by simpa using hcol)
      have hnn : ¬ values.length ≠ (List.drop 1 (h :: rows)).length :=
        fun hne => hne hlen'
      simp only [Tabletools.Table.set_values, if_neg hnn]
      refine ⟨hs.1, by simpa using hs.2.1, rfl, ?_⟩
      intro i r r' hr hr'
      simp only [List.drop] at hr hr'
      exact hs.2.2 i r r' hr hr'

/-- Witness for `Tabletools.Table.set_values_spec`: a 1-data-row table with a
2-element value sequence fails with the cardinality mismatch, table
unchanged. -/
theorem Tabletools.Table.set_values_spec_witness :
    Tabletools.Table.set_values [[9], [1]] [5, 6] 0 =
      ([[9], [1]], some Tabletools.Table.SetValuesError.cardinalityMismatch) :=
  (Tabletools.Table.set_values_spec [[9], [1]] [5, 6] 0).1 (by decide)

/-- C2 counterexample: the claim says `["1","2.5"]` infers to floating-point;
on the code it infers to string (the kinds seen are `{int, float}`, two
distinct kinds, so the `str` fallback applies). -/
theorem Tabletools.Table.infer_type_mixed_counterexample :
    Tabletools.Table._infer_type ["1", "2.5"] = Tabletools.PKind.str ∧
    Tabletools.PKind.str ≠ Tabletools.PKind.float := ⟨by decide, by decide⟩

/-- The data-row loop of `set_column_types` on `pre ++ r :: post`, when every
row of `pre` converts and the cell of `r` does not: the loop stops at `r` with the
conversion error for the (unchanged) cell value of `r`, `pre` keeps its converted
cells, `r` and `post` are untouched. -/
theorem Tabletools.Table.sctGo_fail {α : Type} (conv : α → Option α)
    (kind : String) (col : Nat) (r : List α) (post : List (List α)) (w : α)
    (hr : r.get? col = some w) (hw : conv w = none) :
    ∀ (pre : List (List α)),
      (∀ p ∈ pre, (Tabletools.Table.sctStep conv col p).isSome = true) →
      Tabletools.Table.sctGo conv kind col (pre ++ r :: post) =
        (pre.map (fun p => (Tabletools.Table.sctStep conv col p).getD p)
          ++ r :: post,
         some (.cannotConvert w kind)) := by
  intro pre
  induction pre with
  | nil =>
    intro _
    simp only [List.nil_append, List.map_nil, Tabletools.Table.sctGo, hr, hw]
  | cons p ps ih =>
    intro H
    have hp : (Tabletools.Table.sctStep conv col p).isSome = true :=
      H p (List.mem_cons_self p ps)
    match hpv : p.get? col with
    | none =>
      rw [Tabletools.Table.sctStep, hpv] at hp
      exact absurd hp (by simp)
    | some v =>
      rw [Tabletools.Table.sctStep, hpv] at hp
      have hp' : ((conv v).map (fun v' => p.set col v')).isSome = true := hp
      match hcv : conv v with
      | none =>
        rw [hcv] at hp'
        exact absurd hp' (by simp)
      | some v' =>
        have hstep : Tabletools.Table.sctStep conv col p = some (p.set col v') := by
          rw [Tabletools.Table.sctStep, hpv]
          show (conv v).map (fun x => p.set col x) = some (p.set col v')
          rw [hcv]
          rfl
        have hrec := ih (fun q hq => H q (List.mem_cons_of_mem p hq))
        simp only [List.cons_append, Tabletools.Table.sctGo, hpv, hcv,
          List.map_cons, hstep, Option.getD_some]
        rw [List.append_eq, hrec]

/-- C6: during `set_column_types`, when converting the cell of some data row
fails, the conversion error identifying the offending value and the target
kind is raised at that row (no silent skip: the failing row and all later
rows are left unprocessed), and every data row before the failing one keeps
its converted cell (no rollback). -/
theorem Tabletools.Table.set_column_types_conversion_spec {α : Type}
    (h : List α) (pre post : List (List α)) (r : List α) (col : Nat)
    (kind : String) (conv : α → Option α) (w : α)
    (H : ∀ p ∈ pre, (Tabletools.Table.sctStep conv col p).isSome = true)
    (hr : r.get? col = some w) (hw : conv w = none) :
    Tabletools.Table.set_column_types (h :: (pre ++ r :: post))
        [(col, kind, conv)] =
      (h :: (pre.map (fun p => (Tabletools.Table.sctStep conv col p).getD p)
          ++ r :: post),
       some (.cannotConvert w kind)) := by
  have hgo := Tabletools.Table.sctGo_fail conv kind col r post w hr hw pre H
  simp only [Tabletools.Table.set_column_types, Tabletools.Table.sctJobs, hgo]

/-- Witness for `Tabletools.Table.set_column_types_conversion_spec`: on the
table with header `["c"]`, data rows `["2"], ["x"], ["9"]` and a converter
rejecting non-digit strings, the error names value `"x"` and kind `"int"`,
row `["2"]` stays converted, rows `["x"]` and `["9"]` stay untouched. -/
theorem Tabletools.Table.set_column_types_conversion_spec_witness :
    Tabletools.Table.set_column_types [["c"], ["2"], ["x"], ["9"]]
        [(0, "int", fun s => if Tabletools.pyIsdigit s then some s else none)] =
      ([["c"], ["2"], ["x"], ["9"]],
       some (.cannotConvert ("x") ("int"))) := by
  exact Tabletools.Table.set_column_types_conversion_spec
    ["c"] [["2"]] [["9"]] ["x"] 0 ("int")
    (fun s => if Tabletools.pyIsdigit s then some s else none) "x"
    (by decide) (by decide) (by decide)

/-- The data-row loop of `set_column_types` never produces the empty-table
error (only the conversion and index errors). -/
theorem Tabletools.Table.sctGo_ne_emptyTable {α : Type} (conv : α → Option α)
    (kind : String) (col : Nat) :
    ∀ (rows : List (List α)),
      (Tabletools.Table.sctGo conv kind col rows).2 ≠
        some Tabletools.Table.SctError.emptyTable := by
  intro rows
  induction rows with
  | nil => intro hc; exact Option.noConfusion hc
  | cons r rs ih =>
    intro hc
    rw [Tabletools.Table.sctGo] at hc
    match hpv : r.get? col with
    | none => rw [hpv] at hc; simp at hc
    | some v =>
      rw [hpv] at hc
      match hcv : conv v with
      | none => simp only [hcv] at hc; simp at hc
      | some v' => simp only [hcv] at hc; exact ih hc

/-- The job loop of `set_column_types` never produces the empty-table error. -/
theorem Tabletools.Table.sctJobs_ne_emptyTable {α : Type} :
    ∀ (jobs : List (Nat × String × (α → Option α))) (rows : List (List α)),
      (Tabletools.Table.sctJobs jobs rows).2 ≠
        some Tabletools.Table.SctError.emptyTable := by
  intro jobs
  induction jobs with
  | nil => intro rows hc; exact Option.noConfusion hc
  | cons j rest ih =>
    intro rows hc
    obtain ⟨col, kind, conv⟩ := j
    simp only [Tabletools.Table.sctJobs] at hc
    match hgo : (Tabletools.Table.sctGo conv kind col rows).2 with
    | some e =>
      rw [hgo] at hc
      have he : e = Tabletools.Table.SctError.emptyTable := Option.some.inj hc
      subst he
      exact Tabletools.Table.sctGo_ne_emptyTable conv kind col rows hgo
    | none =>
      rw [hgo] at hc
      exact ih _ hc

/-- C5 (amended): `set_column_types` fails with the "Table is empty" error
exactly when `_data` has no rows at all — a header-only table (which has no
data rows) is not rejected: on it every job runs over zero data rows and the
call returns without error and without change. -/
theorem Tabletools.Table.set_column_types_empty_spec {α : Type}
    (data : List (List α))
    (jobs : List (Nat × String × (α → Option α))) :
    (data = [] →
      Tabletools.Table.set_column_types data jobs =
        ([], some Tabletools.Table.SctError.emptyTable)) ∧
    (data ≠ [] →
      (Tabletools.Table.set_column_types data jobs).2 ≠
        some Tabletools.Table.SctError.emptyTable) ∧
    (∀ (h : List α), Tabletools.Table.set_column_types [h] jobs = ([h], none)) := by
  refine ⟨?_, ?_, ?_⟩
  · intro h; subst h; rfl
  · intro hne
    cases data with
    | nil => exact absurd rfl hne
    | cons h rows =>
      intro hc
      exact Tabletools.Table.sctJobs_ne_emptyTable jobs rows hc
  · intro h
    have hz : ∀ (js : List (Nat × String × (α → Option α))),
        Tabletools.Table.sctJobs js ([] : List (List α)) = ([], none) := by
      intro js
      induction js with
      | nil => rfl
      | cons j rest ih =>
        match j with
        | (col, kind, conv) => rw [Tabletools.Table.sctJobs]; exact ih
    simp only [Tabletools.Table.set_column_types, hz jobs]

/-- C5 counterexample: the claim says `set_column_types` fails with the
empty-table condition whenever the table has no *data* rows; on the
header-only table `[["a"]]` (no data rows) the code raises nothing and
changes nothing. -/
theorem Tabletools.Table.set_column_types_header_only_counterexample :
    Tabletools.Table.set_column_types [["a"]]
        [(0, "int", fun s => if Tabletools.pyIsdigit s then some s else none)] =
      ([["a"]], none) ∧
    (none : Option (Tabletools.Table.SctError String)) ≠
      some Tabletools.Table.SctError.emptyTable := ⟨rfl, by decide⟩

/-- Witness for `Tabletools.Table.set_column_types_empty_spec`: on a table
with no rows at all the empty-table error does fire. -/
theorem Tabletools.Table.set_column_types_empty_spec_witness :
    Tabletools.Table.set_column_types ([] : List (List Nat)) [] =
      ([], some Tabletools.Table.SctError.emptyTable) :=
  (Tabletools.Table.set_column_types_empty_spec [] []).1 rfl

/-- A deep copy is the same row list as a value. -/
theorem Tabletools.deepcopy_eq {α : Type} (l : List (List α)) :
    Tabletools.Table.deepcopy l = l := by
  simp [Tabletools.Table.deepcopy]

/-- Python item access at a natural index is plain list lookup. -/
theorem Tabletools.pyGetItem_coe {α : Type} (l : List α) (k : Nat) :
    Tabletools.pyGetItem l (k : Int) = l.get? k := by
  have h0 : ¬ ((k : Int) < 0) := by omega
  simp [Tabletools.pyGetItem, h0]

/-- A natural slice endpoint normalises to a plain clamp. -/
theorem Tabletools.pyBound_coe (len s : Nat) :
    Tabletools.pyBound len (s : Int) = min s len := by
  rw [Tabletools.pyBound]
  have h0 : ¬ ((s : Int) < 0) := by omega
  rw [if_neg h0]
  omega

/-- Normalising `start - 1` for a 1-based natural `start` normalises to a plain clamp. -/
theorem Tabletools.pyBound_coe_sub_one (len k : Nat) (hk : 1 ≤ k) :
    Tabletools.pyBound len ((k : Int) - 1) = min (k - 1) len := by
  rw [Tabletools.pyBound]
  have h0 : ¬ ((k : Int) - 1 < 0) := by omega
  rw [if_neg h0]
  omega

/-- Taking `min s (length)` elements is taking `s` elements. -/
theorem Tabletools.take_min_length {α : Type} (l : List α) (s : Nat) :
    l.take (min s l.length) = l.take s := by
  rcases Nat.le_total s l.length with h | h
  · rw [Nat.min_eq_left h]
  · rw [Nat.min_eq_right h, List.take_length, List.take_of_length_le h]

/-- Dropping `min a n` elements from a list no longer than `n` is dropping
`a` elements. -/
theorem Tabletools.drop_min_of_length_le {α : Type} (t : List α) (a n : Nat)
    (h : t.length ≤ n) : t.drop (min a n) = t.drop a := by
  rcases Nat.le_total a n with h' | h'
  · rw [Nat.min_eq_left h']
  · rw [Nat.min_eq_right h', List.drop_eq_nil_of_le h,
      List.drop_eq_nil_of_le (Nat.le_trans h h')]

/-- C7: for a 1-based data-row position `k` (header excluded), omitting
`stop` returns the single data row at position `k`; `stop = -1` returns the
data rows from position `k` to the end; any other natural `stop` returns the
absolute slice `[start-1, stop)` of the row list; and the result under the
copy flag is the same row list as without it (a deep copy is value-equal;
aliasing is unobservable here). -/
theorem Tabletools.Table.get_rows_by_number_spec {α : Type}
    (data : List (List α)) (k : Nat) (copy_table : Bool) :
    (∀ r, 1 ≤ k → (data.drop 1).get? (k - 1) = some r →
      Tabletools.Table.get_rows_by_number data (k : Int) none copy_table =
        some [r]) ∧
    (1 ≤ k →
      Tabletools.Table.get_rows_by_number data (k : Int) (some (-1)) copy_table =
        some ((data.drop 1).drop (k - 1))) ∧
    (∀ (s : Nat), 1 ≤ k →
      Tabletools.Table.get_rows_by_number data (k : Int) (some (s : Int))
          copy_table =
        some ((data.take s).drop (k - 1))) ∧
    (∀ (stop : Option Int) (start : Int),
      Tabletools.Table.get_rows_by_number data start stop true =
        Tabletools.Table.get_rows_by_number data start stop false) := by
  have heq : ∀ (start : Int) (stop : Option Int) (c : Bool),
      Tabletools.Table.get_rows_by_number data start stop c =
        (match stop with
         | none => (Tabletools.pyGetItem data start).map (fun r => [r])
         | some s =>
           if s = -1 then some (Tabletools.pySliceFrom data start)
           else some (Tabletools.pySlice data (start - 1) s)) := by
    intro start stop c
    simp only [Tabletools.Table.get_rows_by_number]
    cases stop with
    | none =>
      cases h : Tabletools.pyGetItem data start with
      | none => simp [h]
      | some r => simp [h, Tabletools.deepcopy_eq]
    | some s =>
      by_cases hs : s = -1
      · simp [hs, Tabletools.deepcopy_eq]
      · simp [hs, Tabletools.deepcopy_eq]
  refine ⟨?_, ?_, ?_, ?_⟩
  · intro r hk hr
    have hg : data.get? k = some r := by
      rw [List.get?_drop] at hr
      have hkk : 1 + (k - 1) = k := by omega
      rwa [hkk] at hr
    rw [heq]
    show (Tabletools.pyGetItem data (k : Int)).map (fun r => [r]) = some [r]
    rw [Tabletools.pyGetItem_coe, hg]
    rfl
  · intro hk
    rw [heq]
    show (if (-1 : Int) = -1 then some (Tabletools.pySliceFrom data (k : Int))
        else some (Tabletools.pySlice data ((k : Int) - 1) (-1))) = _
    rw [if_pos rfl, Tabletools.pySliceFrom, Tabletools.pyBound_coe,
      Tabletools.drop_min_of_length_le data k data.length (Nat.le_refl _)]
    have hdd : (data.drop 1).drop (k - 1) = data.drop k := by
      rw [List.drop_drop]
      have hkk : 1 + (k - 1) = k := by omega
      rw [hkk]
    rw [hdd]
  · intro s hk
    have hne : ¬ ((s : Int) = -1) := by omega
    rw [heq]
    show (if (s : Int) = -1 then some (Tabletools.pySliceFrom data (k : Int))
        else some (Tabletools.pySlice data ((k : Int) - 1) (s : Int))) = _
    rw [if_neg hne, Tabletools.pySlice, Tabletools.pyBound_coe,
      Tabletools.pyBound_coe_sub_one data.length k hk,
      Tabletools.take_min_length,
      Tabletools.drop_min_of_length_le (data.take s) (k - 1) data.length
        (by rw [List.length_take]; exact Nat.min_le_right _ _)]
  · intro stop start
    rw [heq, heq]

/-- Witness for `Tabletools.Table.get_rows_by_number_spec`: the ranged case
on a 3-row table, `start = 1`, `stop = 2`, giving rows 0 and 1 of the row
list (header plus first data row). -/
theorem Tabletools.Table.get_rows_by_number_spec_witness :
    Tabletools.Table.get_rows_by_number [[1], [2], [3]] ((1 : Nat) : Int)
        (some ((2 : Nat) : Int)) false =
      some (([[1], [2], [3]].take 2).drop (1 - 1)) :=
  (Tabletools.Table.get_rows_by_number_spec [[1], [2], [3]] 1 false).2.2.1 2
    (by decide)

/-- C8 (amended): on a table whose rows are all non-empty,
`get_rows_by_index` returns, in original order, exactly the rows of `_data`
— the header row included in the scan — whose first cell is among the
supplied key values; in particular the header row itself is part of the
result whenever its first cell matches a key. -/
theorem Tabletools.Table.get_rows_by_index_spec {α : Type} [DecidableEq α]
    (values : List α) :
    ∀ (data : List (List α)), (∀ r ∈ data, r ≠ []) →
      Tabletools.Table.get_rows_by_index data values =
        some (data.filter (fun r =>
          match r.head? with
          | some v => decide (v ∈ values)
          | none => false)) := by
  intro data
  induction data with
  | nil => intro _; rfl
  | cons r rs ih =>
    intro H
    match r with
    | [] => exact absurd rfl (H [] (List.mem_cons_self [] rs))
    | a :: t =>
      have hrec := ih (fun q hq => H q (List.mem_cons_of_mem _ hq))
      simp only [Tabletools.Table.get_rows_by_index, List.head?, hrec]
      by_cases hv : a ∈ values
      · simp [hv, List.filter_cons]
      · simp [hv, List.filter_cons]

/-- C8 counterexample: the claim says the header row is never part of the
result; with header `["a","b"]` and key `"a"` the code returns the header
row (it scans all of `_data`, header included), so the result is not the
claimed data-rows-only list `[["a","1"]]`. -/
theorem Tabletools.Table.get_rows_by_index_header_counterexample :
    Tabletools.Table.get_rows_by_index [["a", "b"], ["a", "1"], ["c", "2"]]
        ["a"] = some [["a", "b"], ["a", "1"]] ∧
    ["a", "b"] ∈ [["a", "b"], ["a", "1"]] ∧
    [["a", "b"], ["a", "1"]] ≠ [["a", "1"]] :=
  ⟨rfl, by decide, by decide⟩

/-- Witness for `Tabletools.Table.get_rows_by_index_spec`: one matching data
row is returned, the non-matching header is not. -/
theorem Tabletools.Table.get_rows_by_index_spec_witness :
    Tabletools.Table.get_rows_by_index [["a", "b"], ["c", "d"]] ["c"] =
      some [["c", "d"]] := by
  rw [Tabletools.Table.get_rows_by_index_spec ["c"] [["a", "b"], ["c", "d"]]
    (by decide)]
  rfl

/-- Worker bound: `pyZipAux` never produces more tuples than its fuel. -/
theorem Tabletools.pyZipAux_length_le {α : Type} :
    ∀ (fuel : Nat) (ls : List (List α)),
      (Tabletools.pyZipAux fuel ls).length ≤ fuel := by
  intro fuel
  induction fuel with
  | zero => intro ls; exact Nat.le_refl 0
  | succ n ih =>
    intro ls
    rw [Tabletools.pyZipAux]
    match hh : Tabletools.heads? ls with
    | none => exact Nat.zero_le _
    | some p =>
      rw [List.length_cons]
      exact Nat.succ_le_succ (ih p.2)

/-- Transposition `zip(*rows)` produces at most `w` tuples when every row has length `w`. -/
theorem Tabletools.pyZip_length_le {α : Type} (rows : List (List α)) (w : Nat)
    (h : ∀ r ∈ rows, r.length = w) : (Tabletools.pyZip rows).length ≤ w := by
  match rows with
  | [] => exact Nat.zero_le w
  | l :: ls =>
    have hl : l.length = w := h l (List.mem_cons_self l ls)
    rw [Tabletools.pyZip, ← hl]
    exact Tabletools.pyZipAux_length_le l.length (l :: ls)

/-- C10: with an integer column key, `get_values` on a table with no data
rows, or on a rectangular table whose column count is at most the requested
index, raises nothing and returns the Python `None` (here `none`) rather than
an empty-table or key-resolution error. -/
theorem Tabletools.Table.get_values_missing_spec {α : Type}
    (data : List (List α)) (column : Nat) :
    (data.drop 1 = [] → Tabletools.Table.get_values data column = none) ∧
    (∀ w, (∀ r ∈ data.drop 1, r.length = w) → w ≤ column →
      Tabletools.Table.get_values data column = none) := by
  constructor
  · intro h
    rw [Tabletools.Table.get_values, h]
    cases column <;> rfl
  · intro w hw hcol
    rw [Tabletools.Table.get_values]
    exact List.get?_eq_none.mpr
      (Nat.le_trans (Tabletools.pyZip_length_le (data.drop 1) w hw) hcol)

/-- Witness for `Tabletools.Table.get_values_missing_spec`: a one-column
table queried at column 5 yields `none`. -/
theorem Tabletools.Table.get_values_missing_spec_witness :
    Tabletools.Table.get_values [["h"], ["x"]] 5 = none :=
  (Tabletools.Table.get_values_missing_spec [["h"], ["x"]] 5).2 1
    (by decide) (by decide)

/-- C9: saving the 26-row table (header `[99]` plus data rows
`[0] … [24]`) with `max_rows = 10` through either chunked handler produces
exactly 3 chunk files named by inserting the counter before the extension;
every chunk after the first begins with the re-emitted header row, and the
chunk data rows concatenate to the original 25 data rows in order (for
CSV the first chunk starts with the original header row itself). -/
theorem Tabletools.chunked_save_25_rows_spec :
    ((Tabletools.CSVHandler.save_table
        ([99] :: (List.range 25).map (fun i => [i])) "table.csv"
        (some 10)).map Prod.fst =
      ["table_1.csv", "table_2.csv", "table_3.csv"] ∧
     (Tabletools.CSVHandler.save_table
        ([99] :: (List.range 25).map (fun i => [i])) "table.csv"
        (some 10)).map (fun f => f.2.head?) =
      [some [99], some [99], some [99]] ∧
     ((Tabletools.CSVHandler.save_table
        ([99] :: (List.range 25).map (fun i => [i])) "table.csv"
        (some 10)).map (fun f => f.2.drop 1)).join =
      (List.range 25).map (fun i => [i])) ∧
    ((Tabletools.PickleHandler.save_table
        ([99] :: (List.range 25).map (fun i => [i])) "table.pkl"
        (some 10)).map Prod.fst =
      ["table_1.pkl", "table_2.pkl", "table_3.pkl"] ∧
     (Tabletools.PickleHandler.save_table
        ([99] :: (List.range 25).map (fun i => [i])) "table.pkl"
        (some 10)).map (fun f => f.2.head?) =
      [some [99], some [99], some [99]] ∧
     ((Tabletools.PickleHandler.save_table
        ([99] :: (List.range 25).map (fun i => [i])) "table.pkl"
        (some 10)).map (fun f => f.2.drop 1)).join =
      (List.range 25).map (fun i => [i])) := by
  exact ⟨⟨by decide, by decide, by decide⟩, ⟨by decide, by decide, by decide⟩⟩

/-- Witness for `Tabletools.Table.infer_type_spec`: its general single-kind
rule applied to the concrete column `["7", "8"]` with kind `int`. -/
theorem Tabletools.Table.infer_type_spec_witness :
    Tabletools.Table._infer_type ["7", "8"] = Tabletools.PKind.int :=
  Tabletools.Table.infer_type_spec.2.2.2.1 ["7", "8"] Tabletools.PKind.int
    (by decide) (by decide)
